import Mathlib

/-!
A verification development for the `code-spring` scaffolder module
(`src/scaffolder.js`).  The JavaScript source is shallowly embedded:

* pure computations (URL building, filename classification, the removal
  filter) become Lean functions on `String` / association lists;
* the event-driven download promise becomes a function from the single
  observed network/stream event to the settlement of the promise together
  with the resulting state of the destination file;
* the recursive directory walk of `extractZipToMemory` becomes a mutual
  recursion over an explicit file-system tree, where each file node carries
  the outcome of its `readFileSync` call (the content string that the call
  returns, or the error message it throws with);
* the `try`/`finally` lifecycle of `scaffold` becomes explicit sequencing
  over the outcomes of the pipeline steps.

JavaScript objects used as string-keyed maps (the `files` object) are
embedded as association lists with the usual lookup / overwrite / delete
operations; regular-expression tests with the `/i` flag are embedded as
comparisons of character-wise lowercased names.
-/

namespace CodeSpring

/-! ### The file model -/

/-- Classification of an extracted file: `binary` entries are stored
base64-encoded by the source, `text` entries are stored as UTF-8. -/
inductive EntryKind where
  | binary
  | text
deriving DecidableEq, Repr

/-- One entry of the in-memory file model, mirroring the object
`{ type, content, executable }` built by `extractZipToMemory`. -/
structure FileEntry where
  type : EntryKind
  content : String
  executable : Bool
deriving DecidableEq, Repr

/-- The in-memory file model: a JavaScript object keyed by relative path,
embedded as an association list. -/
abbrev FileModel := List (String × FileEntry)

/-- Lookup of a key in an association list (property read on the object). -/
def lookupKey {α : Type} : List (String × α) → String → Option α
  | [], _ => none
  | (k', v) :: rest, k => if k' = k then some v else lookupKey rest k

/-- Property assignment `obj[k] = v`: overwrite the key if present,
otherwise append it. -/
def setKey {α : Type} : List (String × α) → String → α → List (String × α)
  | [], k, v => [(k, v)]
  | (k', v') :: rest, k, v =>
    if k' = k then (k, v) :: rest else (k', v') :: setKey rest k v

/-- Property deletion `delete obj[k]`. -/
def eraseKey {α : Type} (m : List (String × α)) (k : String) : List (String × α) :=
  m.filter (fun p => p.1 != k)

theorem lookupKey_setKey {α : Type} (m : List (String × α)) (k p : String) (v : α) :
    lookupKey (setKey m k v) p = if k = p then some v else lookupKey m p := by
  induction m with
  | nil => by_cases h : k = p <;> simp [setKey, lookupKey, h]
  | cons hd tl ih =>
    obtain ⟨k', v'⟩ := hd
    by_cases h1 : k' = k
    · subst h1
      by_cases h2 : k' = p <;> simp [setKey, lookupKey, h2]
    · by_cases h2 : k' = p
      · subst h2
        have hk : k ≠ k' := fun h => h1 h.symm
        simp [setKey, h1, lookupKey, hk]
      · simp [setKey, h1, lookupKey, h2, ih]

theorem mem_setKey {α : Type} {m : List (String × α)} {k p : String} {v w : α}
    (h : (p, w) ∈ setKey m k v) : (p, w) ∈ m ∨ (p = k ∧ w = v) := by
  induction m with
  | nil =>
    simp [setKey] at h
    exact Or.inr ⟨h.1, h.2⟩
  | cons hd tl ih =>
    obtain ⟨k', v'⟩ := hd
    by_cases h1 : k' = k
    · subst h1
      simp [setKey] at h
      rcases h with ⟨rfl, rfl⟩ | h
      · exact Or.inr ⟨rfl, rfl⟩
      · exact Or.inl (List.mem_cons_of_mem _ h)
    · simp [setKey, h1] at h
      rcases h with ⟨rfl, rfl⟩ | h
      · exact Or.inl (List.mem_cons_self _ _)
      · rcases ih h with h' | h'
        · exact Or.inl (List.mem_cons_of_mem _ h')
        · exact Or.inr h'

theorem eraseKey_of_lookup_none {α : Type} {m : List (String × α)} {k : String}
    (h : lookupKey m k = none) : eraseKey m k = m := by
  induction m with
  | nil => rfl
  | cons hd tl ih =>
    obtain ⟨k', v'⟩ := hd
    by_cases hk : k' = k
    · subst hk
      simp [lookupKey] at h
    · rw [lookupKey, if_neg hk] at h
      simp only [eraseKey, List.filter_cons, bne_iff_ne.mpr hk, if_pos]
      rw [show List.filter (fun p => p.1 != k) tl = eraseKey tl k from rfl, ih h]

theorem lookupKey_eraseKey {α : Type} (m : List (String × α)) (k p : String) :
    lookupKey (eraseKey m k) p = if k = p then none else lookupKey m p := by
  induction m with
  | nil => by_cases h : k = p <;> simp [eraseKey, lookupKey, h]
  | cons hd tl ih =>
    obtain ⟨k', v'⟩ := hd
    by_cases h1 : k' = k
    · subst h1
      by_cases h2 : k' = p
      · subst h2
        simpa [eraseKey, lookupKey] using ih
      · simpa [eraseKey, lookupKey, h2] using ih
    · have hb : (k' != k) = true := bne_iff_ne.mpr h1
      by_cases h2 : k' = p
      · subst h2
        have hk : k ≠ k' := fun h => h1 h.symm
        simp only [eraseKey, List.filter_cons] at ih ⊢
        simp [hb, lookupKey, hk]
      · simp only [eraseKey, List.filter_cons] at ih ⊢
        simp [hb, lookupKey, h2, ih]

/-! ### Filename classification (`extractZipToMemory`, lines 116-138) -/

/-- Extension alternatives of the binary-detection regular expression
`/\.(jar|class|png|jpg|jpeg|gif|ico|zip|gz|tar|war|ear)$/i`. -/
def binaryExtensions : List String :=
  ["jar", "class", "png", "jpg", "jpeg", "gif", "ico", "zip", "gz", "tar", "war", "ear"]

/-- Character-wise ASCII lowercasing of a filename; this models the
case-insensitivity flag `/i` of the source's regular expressions. -/
def lowerChars (s : String) : List Char := s.data.map Char.toLower

/-- Embedding of `/\.(jar|...|ear)$/i.test(item.name)`: the lowercased name
ends with a dot followed by one of the listed extensions. -/
def isBinary (name : String) : Bool :=
  binaryExtensions.any (fun e => ("." ++ e).data.isSuffixOf (lowerChars name))

/-- Line-terminator characters, which the JavaScript regexp wildcard dot
does not match: LF, CR, LINE SEPARATOR (U+2028) and PARAGRAPH SEPARATOR
(U+2029). -/
def isLineTerminator (c : Char) : Bool :=
  c == '\n' || c == '\r' || c.toNat == 8232 || c.toNat == 8233

/-- Embedding of `/^(gradlew|gradlew\.bat|.*\.sh)$/i.test(item.name)`: the
lowercased name is one of the two Gradle-wrapper launcher names, or ends in
the shell-script extension preceded only by characters the regexp dot can
match (any character except a line terminator). -/
def shouldBeExecutable (name : String) : Bool :=
  lowerChars name == "gradlew".data || lowerChars name == "gradlew.bat".data ||
    (".sh".data.isSuffixOf (lowerChars name) &&
      ((lowerChars name).take ((lowerChars name).length - 3)).all
        (fun c => !isLineTerminator c))

/-- Specification-side reading of the binary denylist: some listed extension,
preceded by a dot, is a suffix of the case-normalised filename. -/
def BinarySpec (name : String) : Prop :=
  ∃ e ∈ binaryExtensions, ("." ++ e).data <:+ lowerChars name

/-- Specification-side reading of the executable allowlist: the filename is
`gradlew` or `gradlew.bat`, or ends in `.sh` preceded only by
non-line-terminator characters (case-insensitively). -/
def ExecutableSpec (name : String) : Prop :=
  lowerChars name = "gradlew".data ∨ lowerChars name = "gradlew.bat".data ∨
    ∃ pre, lowerChars name = pre ++ ".sh".data ∧
      ∀ c ∈ pre, isLineTerminator c = false

/-- The file entry built for one successfully read file, mirroring the two
object literals of `extractZipToMemory` (binary entries keep a base64
rendering of the bytes, text entries a UTF-8 rendering; both renderings are
embedded as the string the corresponding `readFileSync` call returns). -/
def classifyFile (name content : String) : FileEntry :=
  if isBinary name then
    { type := EntryKind.binary, content := content, executable := shouldBeExecutable name }
  else
    { type := EntryKind.text, content := content, executable := shouldBeExecutable name }

/-! ### The removal filter (`removeFiles`, lines 157-174) -/

/-- The warning text logged when a requested removal path is absent. -/
def removalWarning (k : String) : String :=
  "File not found for removal: " ++ k

/-- Property names every object literal inherits from `Object.prototype`;
reading one of them on the `files` object yields the inherited (truthy)
function or accessor even when no own entry exists. -/
def objectPrototypeKeys : List String :=
  ["constructor", "hasOwnProperty", "isPrototypeOf", "propertyIsEnumerable",
   "toLocaleString", "toString", "valueOf", "__defineGetter__", "__defineSetter__",
   "__lookupGetter__", "__lookupSetter__", "__proto__"]

/-- Truthiness of the JavaScript property read `files[k]` on an
object-literal map: an own entry (always a truthy object here), or a
property inherited from `Object.prototype`. -/
def jsTruthyRead (m : FileModel) (k : String) : Bool :=
  (lookupKey m k).isSome || decide (k ∈ objectPrototypeKeys)

/-- Loop body of `removeFiles`: walk the removal list; the truthiness test
`if (files[fileToRemove])` consults the prototype chain, so a truthy read
takes the delete branch (a no-op on absent own keys) and only a falsy read
records the warning. -/
def removeFilesLoop : FileModel → List String → List String → FileModel × List String
  | files, [], warnings => (files, warnings)
  | files, k :: rest, warnings =>
    if jsTruthyRead files k then
      removeFilesLoop (eraseKey files k) rest warnings
    else
      removeFilesLoop files rest (warnings ++ [removalWarning k])

/-- Embedding of `removeFiles(files, filesToRemove)`; the second component
collects the warnings the source logs to the console. -/
def removeFiles (files : FileModel) (filesToRemove : List String) : FileModel × List String :=
  if filesToRemove.isEmpty then (files, [])
  else removeFilesLoop files filesToRemove []

/-! ### The archive fetcher (`downloadSpringBootZip`, lines 54-81)

The promise executor subscribes to four events: the response callback of the
single `https.get` call (carrying the status code), `finish` and `error` on
the destination write stream, and `error` on the client request.  A run of
the executor is determined by which of these fires, so the embedding maps
the observed event to the settlement of the promise together with whether a
file exists at `outputPath` afterwards.  Note that the response stream
itself (`res`) has no error subscription in the source: `res.pipe(zipFile)`
does not forward source-stream errors to the write stream. -/

/-- Outcome of the streaming transfer once a response has arrived. -/
inductive TransferOutcome where
  | finish
  | writeStreamError (msg : String)
  | responseStreamError (msg : String)
deriving DecidableEq, Repr

/-- The single network event a run of the download promise observes. -/
inductive DownloadEvent where
  | response (statusCode : Nat) (transfer : TransferOutcome)
  | requestError (msg : String)
deriving DecidableEq, Repr

/-- The error values the download promise can reject with, mirroring the
three distinct `Error` constructions of the source. -/
inductive DlError where
  | statusError (statusCode : Nat)
  | streamError (msg : String)
  | requestFailed (msg : String)
deriving DecidableEq, Repr

/-- Settlement state of the promise after the event has been handled;
`pending` records that no handler ran, so the promise never settles. -/
inductive Settlement where
  | resolved (path : String)
  | rejected (e : DlError)
  | pending
deriving DecidableEq, Repr

/-- Embedding of `downloadSpringBootZip(url, outputPath)`: the settlement of
the returned promise and whether a file is present at `outputPath` after the
given event has been processed.  The write stream (and hence the file) is
only created after the 200-status check passes; the write-stream error
handler unlinks the partial file before rejecting. -/
def downloadSpringBootZip (url outputPath : String) (ev : DownloadEvent) :
    Settlement × Bool :=
  match ev with
  | DownloadEvent.requestError msg =>
    (Settlement.rejected (DlError.requestFailed msg), false)
  | DownloadEvent.response status transfer =>
    if status ≠ 200 then (Settlement.rejected (DlError.statusError status), false)
    else
      match transfer with
      | TransferOutcome.finish => (Settlement.resolved outputPath, true)
      | TransferOutcome.writeStreamError msg =>
        (Settlement.rejected (DlError.streamError msg), false)
      | TransferOutcome.responseStreamError _ => (Settlement.pending, true)

/-! ### The request builder (`buildSpringInitializrUrl`, lines 21-49)

`URLSearchParams` serialises the eleven parameters in insertion order,
joining `key=value` pairs with `&` and percent-encoding keys and values as
`application/x-www-form-urlencoded`: a space becomes `+`, ASCII
alphanumerics and `*`, `-`, `.`, `_` pass through, and every other byte of
the UTF-8 encoding becomes `%` followed by two uppercase hex digits. -/

/-- Characters the form-urlencoded serialiser leaves unescaped. -/
def formUnreserved (c : Char) : Bool :=
  (65 ≤ c.toNat && c.toNat ≤ 90) || (97 ≤ c.toNat && c.toNat ≤ 122) ||
    (48 ≤ c.toNat && c.toNat ≤ 57) ||
    c == '*' || c == '-' || c == '.' || c == '_'

/-- Uppercase hexadecimal digit for a value below 16. -/
def hexDigitChar (n : Nat) : Char :=
  if n < 10 then Char.ofNat (48 + n) else Char.ofNat (55 + n)

/-- Percent-escape of a single byte. -/
def percentEncodeByte (b : Nat) : List Char :=
  ['%', hexDigitChar (b / 16), hexDigitChar (b % 16)]

/-- UTF-8 byte sequence of a code point. -/
def utf8Bytes (n : Nat) : List Nat :=
  if n < 128 then [n]
  else if n < 2048 then [192 + n / 64, 128 + n % 64]
  else if n < 65536 then [224 + n / 4096, 128 + (n / 64) % 64, 128 + n % 64]
  else [240 + n / 262144, 128 + (n / 4096) % 64, 128 + (n / 64) % 64, 128 + n % 64]

/-- Form-urlencoded rendering of one character. -/
def encodeFormChar (c : Char) : List Char :=
  if c == ' ' then ['+']
  else if formUnreserved c then [c]
  else ((utf8Bytes c.toNat).map percentEncodeByte).flatten

/-- Form-urlencoded rendering of a character sequence. -/
def encChars (l : List Char) : List Char :=
  (l.map encodeFormChar).flatten

/-- Form-urlencoded rendering of a string. -/
def encodeForm (s : String) : String :=
  ⟨encChars s.data⟩

/-- Serialisation of a `key=value` list in the manner of
`URLSearchParams.toString`, at the character level. -/
def serializeParamsL : List (List Char × List Char) → List Char
  | [] => []
  | [(k, v)] => encChars k ++ '=' :: encChars v
  | (k, v) :: p :: rest => encChars k ++ '=' :: (encChars v ++ '&' :: serializeParamsL (p :: rest))

/-- Serialisation of a `key=value` list in the manner of
`URLSearchParams.toString`. -/
def serializeParams (params : List (String × String)) : String :=
  ⟨serializeParamsL (params.map fun p => (p.1.data, p.2.data))⟩

/-- Argument object of `buildSpringInitializrUrl`; fields destructured with
a default in the source are optional here, and `Option.getD` mirrors the
destructuring default (which applies exactly when the property is absent). -/
structure InitializrOptions where
  groupId : String
  artifactId : String
  packageName : String
  type : Option String := none
  javaVersion : Option String := none
  platformVersion : Option String := none
  packaging : Option String := none
  dependencies : Option String := none
  description : Option String := none
deriving DecidableEq, Repr

/-- The eleven query parameters, in the insertion order of the
`URLSearchParams` object literal of the source. -/
def urlParams (o : InitializrOptions) : List (String × String) :=
  [("type", o.type.getD "gradle-project"),
   ("language", "java"),
   ("platformVersion", o.platformVersion.getD "3.5.3"),
   ("packaging", o.packaging.getD "jar"),
   ("javaVersion", o.javaVersion.getD "21"),
   ("groupId", o.groupId),
   ("artifactId", o.artifactId),
   ("name", o.artifactId),
   ("description", o.description.getD "Spring Boot project"),
   ("packageName", o.packageName),
   ("dependencies", o.dependencies.getD "web")]

/-- Embedding of `buildSpringInitializrUrl(options)`. -/
def buildSpringInitializrUrl (o : InitializrOptions) : String :=
  "https://start.spring.io/starter.zip?" ++ serializeParams (urlParams o)

/-! ### Parameter resolution in `scaffold` (lines 203-217) -/

/-- The optional module field values `scaffold` reads
(`context.module.fieldValues`). -/
structure FieldValues where
  buildTool : Option String := none
  javaVersion : Option String := none
  springBootVersion : Option String := none
  packaging : Option String := none
  dependencies : Option String := none
deriving DecidableEq, Repr

/-- The optional base-template configuration `scaffold` reads
(`moduleConfig.generation.baseTemplate.config`). -/
structure BaseTemplateConfig where
  build : Option String := none
  javaVersion : Option String := none
  platformVersion : Option String := none
  packaging : Option String := none
  dependencies : Option String := none
deriving DecidableEq, Repr

/-- JavaScript `a || b` on an optional string: an absent or empty (falsy)
left operand falls through to the right one. -/
def jsOr (a : Option String) (b : String) : String :=
  match a with
  | some s => if s = "" then b else s
  | none => b

/-- The parameter values `scaffold` passes to the request builder after
applying its `||`-chains of defaults. -/
structure ResolvedParams where
  type : String
  javaVersion : String
  platformVersion : String
  packaging : String
  dependencies : String
deriving DecidableEq, Repr

/-- Embedding of the default resolution in `scaffold`: each field falls back
from `fieldValues` to `baseTemplateConfig` to the literal default, and the
build tool is mapped to its project-type token. -/
def resolveScaffoldParams (fv : FieldValues) (btc : BaseTemplateConfig) : ResolvedParams :=
  let buildTool := jsOr fv.buildTool (jsOr btc.build "gradle")
  { type := if buildTool = "maven" then "maven-project" else "gradle-project"
    javaVersion := jsOr fv.javaVersion (jsOr btc.javaVersion "21")
    platformVersion := jsOr fv.springBootVersion (jsOr btc.platformVersion "3.5.3")
    packaging := jsOr fv.packaging (jsOr btc.packaging "jar")
    dependencies := jsOr fv.dependencies (jsOr btc.dependencies "web,lombok") }

/-- The options object `scaffold` builds the URL from: every defaultable
field is passed explicitly, so the request builder's own destructuring
defaults are not exercised on this path. -/
def scaffoldOptions (groupId artifactId packageName description : String)
    (fv : FieldValues) (btc : BaseTemplateConfig) : InitializrOptions :=
  let r := resolveScaffoldParams fv btc
  { groupId := groupId
    artifactId := artifactId
    packageName := packageName
    type := some r.type
    javaVersion := some r.javaVersion
    platformVersion := some r.platformVersion
    packaging := some r.packaging
    dependencies := some r.dependencies
    description := some description }

/-- The spec's value object for a fully resolved parameter set: the nine
strings the request is built from (the two enums appear here as their
already-mapped string tokens). -/
structure ScaffoldParameters where
  groupId : String
  artifactId : String
  packageName : String
  type : String
  javaVersion : String
  platformVersion : String
  packaging : String
  dependencies : String
  description : String
deriving DecidableEq, Repr

/-- View of a resolved parameter set as the builder's options object, every
field supplied. -/
def toOptions (p : ScaffoldParameters) : InitializrOptions :=
  { groupId := p.groupId
    artifactId := p.artifactId
    packageName := p.packageName
    type := some p.type
    javaVersion := some p.javaVersion
    platformVersion := some p.platformVersion
    packaging := some p.packaging
    dependencies := some p.dependencies
    description := some p.description }

/-- Whether every character of the string is ASCII. -/
def asciiOnly (s : String) : Bool :=
  s.data.all (fun c => decide (c.toNat < 128))

/-- A valid parameter set for the remote generator: ASCII field values
(Maven coordinates, version numbers, dependency identifiers and the
generated description are all ASCII). -/
def ValidParams (p : ScaffoldParameters) : Prop :=
  asciiOnly p.groupId = true ∧ asciiOnly p.artifactId = true ∧
    asciiOnly p.packageName = true ∧ asciiOnly p.type = true ∧
    asciiOnly p.javaVersion = true ∧ asciiOnly p.platformVersion = true ∧
    asciiOnly p.packaging = true ∧ asciiOnly p.dependencies = true ∧
    asciiOnly p.description = true

/-! ### The archive materializer (`extractZipToMemory`, lines 104-151)

The extracted directory tree is embedded explicitly: a file node carries the
outcome of its `readFileSync` call (the content string the call returns, or
the message of the error it throws), a directory node carries its children
in `readdirSync` order.  `readDirectoryRecursive` walks this tree carrying
the shared `files` object and the warnings logged so far. -/

/-- A node of the extracted directory tree. -/
inductive FsEntry where
  | file (name : String) (read : Except String String)
  | dir (name : String) (children : List FsEntry)
deriving Repr

/-- Embedding of `path.join(basePath, item.name)` under the source's
`basePath ? path.join(basePath, item.name) : item.name` guard. -/
def pathJoin (basePath name : String) : String :=
  if basePath = "" then name else basePath ++ "/" ++ name

/-- The warning text logged when one extracted file cannot be read. -/
def readWarning (relativePath msg : String) : String :=
  "Could not read file " ++ relativePath ++ ": " ++ msg

/-- JavaScript property assignment `files[k] = v` on an object-literal map:
the key `__proto__` invokes the accessor inherited from `Object.prototype`,
replacing the object's prototype and creating no own entry; every other key
is written as an own property. -/
def jsSetKey (m : FileModel) (k : String) (v : FileEntry) : FileModel :=
  if k = "__proto__" then m else setKey m k v

mutual

/-- Loop body of `readDirectoryRecursive` for a single directory item:
directories recurse, files are classified and stored, a failing read is
logged and skipped. -/
def readDirectoryItem (basePath : String) (e : FsEntry)
    (acc : FileModel × List String) : FileModel × List String :=
  match e with
  | FsEntry.file name read =>
    match read with
    | Except.ok content =>
      (jsSetKey acc.1 (pathJoin basePath name) (classifyFile name content), acc.2)
    | Except.error msg =>
      (acc.1, acc.2 ++ [readWarning (pathJoin basePath name) msg])
  | FsEntry.dir name children =>
    readDirectoryRecursive (pathJoin basePath name) children acc

/-- Embedding of `readDirectoryRecursive(dirPath, basePath)`: fold the loop
body over the directory items in order. -/
def readDirectoryRecursive (basePath : String) (items : List FsEntry)
    (acc : FileModel × List String) : FileModel × List String :=
  match items with
  | [] => acc
  | e :: rest => readDirectoryRecursive basePath rest (readDirectoryItem basePath e acc)

end

/-- Embedding of the walk phase of `extractZipToMemory`: run the recursive
read over the unpacked root with an empty `files` object, returning the file
model and the warnings logged. -/
def extractZipToMemory (root : List FsEntry) : FileModel × List String :=
  readDirectoryRecursive "" root ([], [])

mutual

/-- Relative path, bare filename and content of every successfully readable
file below one node. -/
def okFilesItem (basePath : String) : FsEntry → List (String × String × String)
  | FsEntry.file name (Except.ok content) => [(pathJoin basePath name, name, content)]
  | FsEntry.file _ (Except.error _) => []
  | FsEntry.dir name children => okFilesList (pathJoin basePath name) children

/-- Relative path, bare filename and content of every successfully readable
file below a list of sibling nodes. -/
def okFilesList (basePath : String) : List FsEntry → List (String × String × String)
  | [] => []
  | e :: rest => okFilesItem basePath e ++ okFilesList basePath rest

end

mutual

/-- Relative path and error message of every unreadable file below one
node. -/
def errFilesItem (basePath : String) : FsEntry → List (String × String)
  | FsEntry.file _ (Except.ok _) => []
  | FsEntry.file name (Except.error msg) => [(pathJoin basePath name, msg)]
  | FsEntry.dir name children => errFilesList (pathJoin basePath name) children

/-- Relative path and error message of every unreadable file below a list
of sibling nodes. -/
def errFilesList (basePath : String) : List FsEntry → List (String × String)
  | [] => []
  | e :: rest => errFilesItem basePath e ++ errFilesList basePath rest

end

mutual

/-- Relative paths of all files (readable or not) below one node. -/
def allPathsItem (basePath : String) : FsEntry → List String
  | FsEntry.file name _ => [pathJoin basePath name]
  | FsEntry.dir name children => allPathsList (pathJoin basePath name) children

/-- Relative paths of all files (readable or not) below a list of sibling
nodes. -/
def allPathsList (basePath : String) : List FsEntry → List String
  | [] => []
  | e :: rest => allPathsItem basePath e ++ allPathsList basePath rest

end

/-! ### The orchestration wrapper (`scaffold`, lines 230-258) -/

/-- Outcome of one awaited pipeline step. -/
inductive StepOutcome (α : Type) where
  | ok (value : α)
  | fatal (err : String)
deriving DecidableEq, Repr

/-- The externally determined outcomes of one `scaffold` invocation: how the
download and the extraction go, which removal list the module configuration
supplies, and whether the final `fs.rmSync` throws. -/
structure ScaffoldRun where
  downloadOutcome : StepOutcome String
  extractOutcome : StepOutcome FileModel
  filesToRemove : List String
  cleanupFails : Bool
deriving DecidableEq, Repr

/-- Result of a settled `scaffold` call: the value or error its promise
settles with, whether the staging directory was removed from disk, and the
cleanup warnings logged on the way out. -/
structure ScaffoldResult where
  primary : Except String FileModel
  stagingRemoved : Bool
  cleanupWarnings : List String
deriving Repr

/-- The `try` block of `scaffold`: download, then extract, then apply the
removal filter; the first fatal step error propagates. -/
def runPipeline (r : ScaffoldRun) : Except String FileModel :=
  match r.downloadOutcome with
  | StepOutcome.fatal e => Except.error e
  | StepOutcome.ok _ =>
    match r.extractOutcome with
    | StepOutcome.fatal e => Except.error e
    | StepOutcome.ok files => Except.ok (removeFiles files r.filesToRemove).1

/-- The `finally` block of `scaffold`: attempt the recursive delete of the
staging directory; a throw is caught and only logged. -/
def runCleanup (cleanupFails : Bool) (tempDir : String) : Bool × List String :=
  if cleanupFails then
    (false, ["Could not clean up temporary directory " ++ tempDir])
  else (true, [])

/-- Embedding of `scaffold`'s staging lifecycle: the primary result is
computed by the `try` block and the cleanup runs on the way out of the
`finally` block, on every exit path, before the promise settles. -/
def scaffold (r : ScaffoldRun) (tempDir : String) : ScaffoldResult :=
  let primary := runPipeline r
  let cleanup := runCleanup r.cleanupFails tempDir
  { primary := primary
    stagingRemoved := cleanup.1
    cleanupWarnings := cleanup.2 }

/-! ### Injectivity of the form-urlencoded serialisation -/

theorem formUnreserved_ne {c : Char} (h : formUnreserved c = true) :
    c ≠ '&' ∧ c ≠ '%' ∧ c ≠ '+' ∧ c ≠ ' ' := by
  refine ⟨?_, ?_, ?_, ?_⟩ <;> rintro rfl <;> revert h <;> decide

theorem encodeFormChar_unreserved {c : Char} (h : formUnreserved c = true) :
    encodeFormChar c = [c] := by
  have hs : ¬(c == ' ') = true := by
    simp only [beq_iff_eq]
    exact (formUnreserved_ne h).2.2.2
  simp [encodeFormChar, hs, h]

theorem encodeFormChar_percent {c : Char} (hs : c ≠ ' ') (hu : formUnreserved c = false)
    (ha : c.toNat < 128) :
    encodeFormChar c = ['%', hexDigitChar (c.toNat / 16), hexDigitChar (c.toNat % 16)] := by
  simp [encodeFormChar, hs, hu, utf8Bytes, ha, percentEncodeByte]

theorem hexDigitChar_ne : ∀ n < 16, hexDigitChar n ≠ '&' ∧ hexDigitChar n ≠ '%' ∧
    hexDigitChar n ≠ '+' := by
  decide

theorem hexDigitChar_inj : ∀ a < 16, ∀ b < 16, hexDigitChar a = hexDigitChar b → a = b := by
  decide

theorem char_toNat_inj {a b : Char} (h : a.toNat = b.toNat) : a = b := by
  rw [← Char.ofNat_toNat a, ← Char.ofNat_toNat b, h]

theorem encodeFormChar_append_inj {c₁ c₂ : Char} {r₁ r₂ : List Char}
    (a₁ : c₁.toNat < 128) (a₂ : c₂.toNat < 128)
    (h : encodeFormChar c₁ ++ r₁ = encodeFormChar c₂ ++ r₂) : c₁ = c₂ ∧ r₁ = r₂ := by
  by_cases s₁ : c₁ = ' ' <;> by_cases s₂ : c₂ = ' '
  · subst s₁ s₂
    simp only [encodeFormChar, List.cons_append] at h
    injection h with _ h2
    exact ⟨rfl, by simpa using h2⟩
  · subst s₁
    by_cases u₂ : formUnreserved c₂ = true
    · rw [encodeFormChar_unreserved u₂] at h
      simp only [encodeFormChar, List.cons_append] at h
      injection h with h1 _
      exact absurd h1.symm (formUnreserved_ne u₂).2.2.1
    · rw [encodeFormChar_percent s₂ (Bool.eq_false_iff.mpr u₂) a₂] at h
      simp only [encodeFormChar, List.cons_append] at h
      injection h with h1 _
      exact absurd h1 (by decide)
  · subst s₂
    by_cases u₁ : formUnreserved c₁ = true
    · rw [encodeFormChar_unreserved u₁] at h
      simp only [encodeFormChar, List.cons_append] at h
      injection h with h1 _
      exact absurd h1 (formUnreserved_ne u₁).2.2.1
    · rw [encodeFormChar_percent s₁ (Bool.eq_false_iff.mpr u₁) a₁] at h
      simp only [encodeFormChar, List.cons_append] at h
      injection h with h1 _
      exact absurd h1.symm (by decide)
  · by_cases u₁ : formUnreserved c₁ = true <;> by_cases u₂ : formUnreserved c₂ = true
    · rw [encodeFormChar_unreserved u₁, encodeFormChar_unreserved u₂] at h
      simp only [List.cons_append] at h
      injection h with h1 h2
      exact ⟨h1, h2⟩
    · rw [encodeFormChar_unreserved u₁,
        encodeFormChar_percent s₂ (Bool.eq_false_iff.mpr u₂) a₂] at h
      simp only [List.cons_append] at h
      injection h with h1 _
      exact absurd h1 (formUnreserved_ne u₁).2.1
    · rw [encodeFormChar_percent s₁ (Bool.eq_false_iff.mpr u₁) a₁,
        encodeFormChar_unreserved u₂] at h
      simp only [List.cons_append] at h
      injection h with h1 _
      exact absurd h1.symm (formUnreserved_ne u₂).2.1
    · rw [encodeFormChar_percent s₁ (Bool.eq_false_iff.mpr u₁) a₁,
        encodeFormChar_percent s₂ (Bool.eq_false_iff.mpr u₂) a₂] at h
      simp only [List.cons_append] at h
      injection h with _ h
      injection h with hhi h
      injection h with hlo h
      have hd : c₁.toNat / 16 = c₂.toNat / 16 :=
        hexDigitChar_inj _ (by omega) _ (by omega) hhi
      have hm : c₁.toNat % 16 = c₂.toNat % 16 :=
        hexDigitChar_inj _ (by omega) _ (by omega) hlo
      exact ⟨char_toNat_inj (by omega), h⟩

theorem encodeFormChar_ne_nil {c : Char} (ha : c.toNat < 128) : encodeFormChar c ≠ [] := by
  by_cases s : c = ' '
  · subst s
    decide
  · by_cases u : formUnreserved c = true
    · rw [encodeFormChar_unreserved u]
      simp
    · rw [encodeFormChar_percent s (Bool.eq_false_iff.mpr u) ha]
      simp

theorem encChars_nil : encChars [] = [] := rfl

theorem encChars_cons (c : Char) (t : List Char) :
    encChars (c :: t) = encodeFormChar c ++ encChars t := by
  simp [encChars]

theorem encChars_inj {l₁ l₂ : List Char} (h₁ : ∀ c ∈ l₁, c.toNat < 128)
    (h₂ : ∀ c ∈ l₂, c.toNat < 128) (h : encChars l₁ = encChars l₂) : l₁ = l₂ := by
  induction l₁ generalizing l₂ with
  | nil =>
    cases l₂ with
    | nil => rfl
    | cons c t =>
      rw [encChars_nil, encChars_cons] at h
      rcases List.append_eq_nil.mp h.symm with ⟨hn, -⟩
      exact absurd hn (encodeFormChar_ne_nil (h₂ c (List.mem_cons_self c t)))
  | cons c₁ t₁ ih =>
    cases l₂ with
    | nil =>
      rw [encChars_nil, encChars_cons] at h
      rcases List.append_eq_nil.mp h with ⟨hn, -⟩
      exact absurd hn (encodeFormChar_ne_nil (h₁ c₁ (List.mem_cons_self c₁ t₁)))
    | cons c₂ t₂ =>
      rw [encChars_cons, encChars_cons] at h
      obtain ⟨rfl, h'⟩ := encodeFormChar_append_inj
        (h₁ c₁ (List.mem_cons_self c₁ t₁)) (h₂ c₂ (List.mem_cons_self c₂ t₂)) h
      rw [ih (fun c hc => h₁ c (List.mem_cons_of_mem _ hc))
        (fun c hc => h₂ c (List.mem_cons_of_mem _ hc)) h']

theorem asciiOnly_forall {s : String} (h : asciiOnly s = true) :
    ∀ c ∈ s.data, c.toNat < 128 := by
  simpa [asciiOnly, List.all_eq_true] using h

theorem encodeFormChar_no_amp {c : Char} (ha : c.toNat < 128) :
    '&' ∉ encodeFormChar c := by
  by_cases s : c = ' '
  · subst s
    decide
  · by_cases u : formUnreserved c = true
    · rw [encodeFormChar_unreserved u]
      intro hm
      exact (formUnreserved_ne u).1 (List.mem_singleton.mp hm).symm
    · rw [encodeFormChar_percent s (Bool.eq_false_iff.mpr u) ha]
      intro hm
      simp only [List.mem_cons, List.not_mem_nil, or_false] at hm
      rcases hm with h1 | h1 | h1
      · exact absurd h1 (by decide)
      · exact (hexDigitChar_ne _ (by omega)).1 h1.symm
      · exact (hexDigitChar_ne _ (by omega)).1 h1.symm

theorem encChars_no_amp {l : List Char} (h : ∀ c ∈ l, c.toNat < 128) :
    '&' ∉ encChars l := by
  induction l with
  | nil => simp [encChars_nil]
  | cons c t ih =>
    rw [encChars_cons]
    intro hm
    rcases List.mem_append.mp hm with hm | hm
    · exact encodeFormChar_no_amp (h c (List.mem_cons_self c t)) hm
    · exact ih (fun x hx => h x (List.mem_cons_of_mem _ hx)) hm

theorem split_at_amp {u₁ u₂ w₁ w₂ : List Char} (h : u₁ ++ '&' :: w₁ = u₂ ++ '&' :: w₂)
    (n₁ : '&' ∉ u₁) (n₂ : '&' ∉ u₂) : u₁ = u₂ ∧ w₁ = w₂ := by
  induction u₁ generalizing u₂ with
  | nil =>
    cases u₂ with
    | nil => simpa using h
    | cons c t =>
      rw [List.nil_append, List.cons_append] at h
      injection h with h1 _
      exact absurd (h1 ▸ List.mem_cons_self c t) (h1 ▸ n₂)
  | cons c₁ t₁ ih =>
    cases u₂ with
    | nil =>
      rw [List.nil_append, List.cons_append] at h
      injection h with h1 _
      exact absurd (h1 ▸ List.mem_cons_self c₁ t₁) (h1 ▸ n₁)
    | cons c₂ t₂ =>
      rw [List.cons_append, List.cons_append] at h
      injection h with h1 h2
      subst h1
      obtain ⟨rfl, hw⟩ := ih h2 (fun hm => n₁ (List.mem_cons_of_mem _ hm))
        (fun hm => n₂ (List.mem_cons_of_mem _ hm))
      exact ⟨rfl, hw⟩

/-- Peel one percent-encoded value followed by a literal ampersand off both
sides of a serialised-query equation. -/
theorem peel_value {v₁ v₂ : String} {r₁ r₂ : List Char}
    (a₁ : asciiOnly v₁ = true) (a₂ : asciiOnly v₂ = true)
    (h : encChars v₁.data ++ '&' :: r₁ = encChars v₂.data ++ '&' :: r₂) :
    v₁ = v₂ ∧ r₁ = r₂ := by
  obtain ⟨hv, hr⟩ := split_at_amp h (encChars_no_amp (asciiOnly_forall a₁))
    (encChars_no_amp (asciiOnly_forall a₂))
  exact ⟨String.ext (encChars_inj (asciiOnly_forall a₁) (asciiOnly_forall a₂) hv), hr⟩

/-- Full injectivity of the percent-encoding on ASCII strings. -/
theorem encodeForm_data_inj {v₁ v₂ : String} (a₁ : asciiOnly v₁ = true)
    (a₂ : asciiOnly v₂ = true) (h : encChars v₁.data = encChars v₂.data) : v₁ = v₂ :=
  String.ext (encChars_inj (asciiOnly_forall a₁) (asciiOnly_forall a₂) h)

/-! ### Lemmas about the removal filter -/

theorem jsTruthyRead_false {m : FileModel} {k : String} (h : ¬ jsTruthyRead m k = true) :
    lookupKey m k = none ∧ k ∉ objectPrototypeKeys := by
  simp only [jsTruthyRead, Bool.or_eq_true, not_or, decide_eq_true_eq] at h
  exact ⟨Option.not_isSome_iff_eq_none.mp h.1, h.2⟩

theorem removeFilesLoop_lookup_none {files : FileModel} {k : String}
    (L : List String) (w : List String) (h : lookupKey files k = none) :
    lookupKey (removeFilesLoop files L w).1 k = none := by
  induction L generalizing files w with
  | nil => simpa [removeFilesLoop] using h
  | cons k' rest ih =>
    by_cases hs : jsTruthyRead files k'
    · simp only [removeFilesLoop, hs, if_pos]
      apply ih
      rw [lookupKey_eraseKey]
      split <;> simp [h]
    · simp only [removeFilesLoop, hs, if_neg]
      exact ih _ h

theorem removeFilesLoop_lookup_mem {files : FileModel} {k : String}
    {L : List String} (w : List String) (h : k ∈ L) :
    lookupKey (removeFilesLoop files L w).1 k = none := by
  induction L generalizing files w with
  | nil => simp at h
  | cons k' rest ih =>
    by_cases hs : jsTruthyRead files k'
    · simp only [removeFilesLoop, hs, if_pos]
      rcases List.mem_cons.mp h with rfl | hmem
      · exact removeFilesLoop_lookup_none rest w (by rw [lookupKey_eraseKey]; simp)
      · exact ih w hmem
    · simp only [removeFilesLoop, hs, if_neg]
      rcases List.mem_cons.mp h with rfl | hmem
      · exact removeFilesLoop_lookup_none rest _ (jsTruthyRead_false hs).1
      · exact ih _ hmem

theorem removeFilesLoop_lookup_not_mem {files : FileModel} {k : String}
    {L : List String} (w : List String) (h : k ∉ L) :
    lookupKey (removeFilesLoop files L w).1 k = lookupKey files k := by
  induction L generalizing files w with
  | nil => simp [removeFilesLoop]
  | cons k' rest ih =>
    have hk' : k' ≠ k := fun he => h (he ▸ List.mem_cons_self k' rest)
    have hrest : k ∉ rest := fun hm => h (List.mem_cons_of_mem _ hm)
    by_cases hs : jsTruthyRead files k'
    · simp only [removeFilesLoop, hs, if_pos]
      rw [ih _ hrest, lookupKey_eraseKey, if_neg hk']
    · simp only [removeFilesLoop, hs, if_neg]
      exact ih _ hrest

theorem removeFilesLoop_warnings_mono {files : FileModel} {L : List String}
    {w : List String} {x : String} (h : x ∈ w) :
    x ∈ (removeFilesLoop files L w).2 := by
  induction L generalizing files w with
  | nil => simpa [removeFilesLoop] using h
  | cons k' rest ih =>
    by_cases hs : jsTruthyRead files k'
    · simp only [removeFilesLoop, hs, if_pos]
      exact ih h
    · simp only [removeFilesLoop, hs, if_neg]
      exact ih (List.mem_append_left _ h)

theorem removeFilesLoop_warning_recorded {files : FileModel} {k : String}
    {L : List String} (w : List String) (hmem : k ∈ L)
    (habs : lookupKey files k = none) (hproto : k ∉ objectPrototypeKeys) :
    removalWarning k ∈ (removeFilesLoop files L w).2 := by
  induction L generalizing files w with
  | nil => simp at hmem
  | cons k' rest ih =>
    rcases List.mem_cons.mp hmem with rfl | hm
    · have hs : ¬ jsTruthyRead files k = true := by
        simp [jsTruthyRead, habs, hproto]
      simp only [removeFilesLoop, hs, if_neg]
      exact removeFilesLoop_warnings_mono (List.mem_append_right _ (List.mem_singleton.mpr rfl))
    · by_cases hs : jsTruthyRead files k'
      · simp only [removeFilesLoop, hs, if_pos]
        refine ih _ hm ?_
        rw [lookupKey_eraseKey]
        split <;> simp [habs]
      · simp only [removeFilesLoop, hs, if_neg]
        exact ih _ hm habs

theorem removalWarning_inj {k₁ k₂ : String} (h : removalWarning k₁ = removalWarning k₂) :
    k₁ = k₂ := by
  have hd := congrArg String.data h
  simp only [removalWarning, String.data_append] at hd
  exact String.ext (List.append_cancel_left hd)

theorem removeFilesLoop_warning_proto {files : FileModel} {L : List String}
    {w : List String} {k : String}
    (h : removalWarning k ∈ (removeFilesLoop files L w).2) :
    removalWarning k ∈ w ∨ k ∉ objectPrototypeKeys := by
  induction L generalizing files w with
  | nil => exact Or.inl (by simpa [removeFilesLoop] using h)
  | cons k' rest ih =>
    by_cases hs : jsTruthyRead files k'
    · simp only [removeFilesLoop, hs, if_pos] at h
      exact ih h
    · simp only [removeFilesLoop, hs, if_neg] at h
      rcases ih h with hw | hnp
      · rcases List.mem_append.mp hw with hw | hw
        · exact Or.inl hw
        · have hk : k = k' := removalWarning_inj (List.mem_singleton.mp hw)
          subst hk
          exact Or.inr (jsTruthyRead_false hs).2
      · exact Or.inr hnp

theorem removeFilesLoop_fixed {files : FileModel} {L : List String}
    (w : List String) (h : ∀ k ∈ L, lookupKey files k = none) :
    (removeFilesLoop files L w).1 = files := by
  induction L generalizing w with
  | nil => simp [removeFilesLoop]
  | cons k' rest ih =>
    have habs : lookupKey files k' = none := h k' (List.mem_cons_self k' rest)
    by_cases hs : jsTruthyRead files k'
    · simp only [removeFilesLoop, hs, if_pos, eraseKey_of_lookup_none habs]
      exact ih _ (fun k hk => h k (List.mem_cons_of_mem _ hk))
    · simp only [removeFilesLoop, hs, if_neg]
      exact ih _ (fun k hk => h k (List.mem_cons_of_mem _ hk))

/-- [C7, counterexample] The claim reads "a requested path absent from the
model produces only a non-fatal warning".  For the absent path `toString`
the source's truthiness check `if (files[fileToRemove])` sees the function
inherited from `Object.prototype`, takes the delete branch, and emits no
warning: the result carries an empty warning list. -/
theorem removeFiles_inherited_name_counterexample :
    lookupKey ([] : FileModel) "toString" = none ∧
    removeFiles ([] : FileModel) ["toString"] = ([], []) :=
  ⟨rfl, rfl⟩

/-- [C7, amended] For every file model and removal list, the removal filter
is idempotent on the model; every requested path is absent afterwards;
paths not requested are untouched; a requested path absent from the model
produces only a non-fatal warning and leaves the model unchanged for that
key, unless the path is a property name inherited from `Object.prototype`
(`toString`, `constructor`, ...), for which the truthiness check sees the
inherited value and the filter silently does nothing — no warning is ever
emitted for such a name. -/
theorem removeFiles_spec (files : FileModel) (toRemove : List String) :
    (removeFiles (removeFiles files toRemove).1 toRemove).1 = (removeFiles files toRemove).1 ∧
    (∀ k, k ∈ toRemove → lookupKey (removeFiles files toRemove).1 k = none) ∧
    (∀ k, k ∉ toRemove → lookupKey (removeFiles files toRemove).1 k = lookupKey files k) ∧
    (∀ k, k ∈ toRemove → lookupKey files k = none → k ∉ objectPrototypeKeys →
      removalWarning k ∈ (removeFiles files toRemove).2) ∧
    (∀ k, removalWarning k ∈ (removeFiles files toRemove).2 →
      k ∉ objectPrototypeKeys) := by
  by_cases hL : toRemove.isEmpty
  · have : toRemove = [] := List.isEmpty_iff.mp hL
    subst this
    simp [removeFiles]
  · refine ⟨?_, fun k hk => ?_, fun k hk => ?_, fun k hk habs hproto => ?_, fun k hw => ?_⟩
    · simp only [removeFiles, hL, if_neg]
      exact removeFilesLoop_fixed [] (fun k hk => removeFilesLoop_lookup_mem [] hk)
    · simp only [removeFiles, hL, if_neg]
      exact removeFilesLoop_lookup_mem [] hk
    · simp only [removeFiles, hL, if_neg]
      exact removeFilesLoop_lookup_not_mem [] hk
    · simp only [removeFiles, hL, if_neg]
      exact removeFilesLoop_warning_recorded [] hk habs hproto
    · simp only [removeFiles, hL, if_neg] at hw
      rcases removeFilesLoop_warning_proto hw with hw' | hnp
      · simp at hw'
      · exact hnp

/-- Witness for `removeFiles_spec` at a concrete model and removal list:
the present path `README.md` is deleted, and the absent non-inherited path
`HELP.md` yields its warning. -/
theorem removeFiles_spec_witness :
    lookupKey (removeFiles [("README.md", classifyFile "README.md" "docs")]
      ["README.md", "HELP.md"]).1 "README.md" = none ∧
    removalWarning "HELP.md" ∈ (removeFiles [("README.md", classifyFile "README.md" "docs")]
      ["README.md", "HELP.md"]).2 :=
  ⟨(removeFiles_spec [("README.md", classifyFile "README.md" "docs")]
      ["README.md", "HELP.md"]).2.1 "README.md" (by decide),
   (removeFiles_spec [("README.md", classifyFile "README.md" "docs")]
      ["README.md", "HELP.md"]).2.2.2.1 "HELP.md" (by decide) (by decide) (by decide)⟩

/-! ### Lemmas and theorems about the classification policy -/

theorem classifyFile_executable (n c : String) :
    (classifyFile n c).executable = shouldBeExecutable n := by
  unfold classifyFile
  split <;> rfl

theorem classifyFile_type (n c : String) :
    (classifyFile n c).type = if isBinary n then EntryKind.binary else EntryKind.text := by
  unfold classifyFile
  split <;> simp_all

theorem suffix_getLast? {s t : List Char} (h : s <:+ t) (hne : s ≠ []) :
    t.getLast? = s.getLast? := by
  obtain ⟨u, rfl⟩ := h
  exact List.getLast?_append_of_ne_nil u hne

/-- The dot-star-dot-sh alternative of the executable regexp, characterised:
the lowercased name splits as a dot-free-of-line-terminators prefix followed
by the literal `.sh`. -/
theorem shSuffix_iff (l : List Char) :
    (".sh".data.isSuffixOf l &&
        (l.take (l.length - 3)).all (fun c => !isLineTerminator c)) = true
      ↔ ∃ pre, l = pre ++ ".sh".data ∧ ∀ c ∈ pre, isLineTerminator c = false := by
  rw [Bool.and_eq_true, List.isSuffixOf_iff_suffix]
  constructor
  · rintro ⟨⟨pre, rfl⟩, hall⟩
    refine ⟨pre, rfl, fun c hc => ?_⟩
    have hlen : (pre ++ ".sh".data).length - 3 = pre.length := by
      simp [List.length_append]
    rw [hlen, List.take_left] at hall
    simpa using List.all_eq_true.mp hall c hc
  · rintro ⟨pre, rfl, hall⟩
    refine ⟨⟨pre, rfl⟩, ?_⟩
    have hlen : (pre ++ ".sh".data).length - 3 = pre.length := by
      simp [List.length_append]
    rw [hlen, List.take_left, List.all_eq_true]
    intro c hc
    simpa using hall c hc

/-- Disjointness of the executable allowlist and the binary denylist: no
name can match both. -/
theorem executable_not_binary (name : String) (h : shouldBeExecutable name = true) :
    isBinary name = false := by
  simp only [shouldBeExecutable, Bool.or_eq_true, Bool.and_eq_true, beq_iff_eq,
    List.isSuffixOf_iff_suffix] at h
  rcases h with (h | h) | ⟨hsh, -⟩
  · unfold isBinary
    rw [h]
    decide
  · unfold isBinary
    rw [h]
    decide
  · rw [Bool.eq_false_iff]
    intro hb
    rw [isBinary, List.any_eq_true] at hb
    obtain ⟨e, he, hsuf⟩ := hb
    rw [List.isSuffixOf_iff_suffix] at hsuf
    fin_cases he <;>
      exact absurd (List.suffix_or_suffix_of_suffix hsuf hsh) (by decide)

/-- [C3, counterexample] The claim reads "executable iff the bare filename
is gradlew, gradlew.bat, or ends in a shell-script extension".  The name
with an embedded line feed ends in `.sh` and is neither launcher name, yet
the source regexp rejects it: the regexp dot does not match line
terminators, so `shouldBeExecutable` is false. -/
theorem shouldBeExecutable_newline_counterexample :
    shouldBeExecutable "a\nb.sh" = false ∧
    ".sh".data <:+ lowerChars "a\nb.sh" ∧
    lowerChars "a\nb.sh" ≠ "gradlew".data ∧
    lowerChars "a\nb.sh" ≠ "gradlew.bat".data := by
  refine ⟨?_, ?_, ?_, ?_⟩ <;> decide

/-- [C3, amended] The materializer's classification: a file is binary
exactly when its name, case-insensitively, ends in a dot followed by one of
the twelve denylisted extensions, and executable exactly when its name is a
Gradle-wrapper launcher name or ends in the shell-script extension preceded
only by characters the regexp dot matches (no line terminators); in
particular `app.jar` is always binary, `gradlew` always executable, and
`README.md` always text and non-executable. -/
theorem classification_spec :
    (∀ name, isBinary name = true ↔ BinarySpec name) ∧
    (∀ name, shouldBeExecutable name = true ↔ ExecutableSpec name) ∧
    (∀ content, (classifyFile "app.jar" content).type = EntryKind.binary) ∧
    (∀ content, (classifyFile "gradlew" content).executable = true) ∧
    (∀ content, (classifyFile "README.md" content).type = EntryKind.text ∧
      (classifyFile "README.md" content).executable = false) := by
  refine ⟨fun name => ?_, fun name => ?_, fun c => ?_, fun c => ?_, fun c => ?_⟩
  · simp [isBinary, BinarySpec, List.any_eq_true, List.isSuffixOf_iff_suffix]
  · rw [ExecutableSpec.eq_def, shouldBeExecutable.eq_def, Bool.or_eq_true,
      Bool.or_eq_true, shSuffix_iff]
    simp [or_assoc]
  · rw [classifyFile_type, if_pos (by decide : isBinary "app.jar" = true)]
  · rw [classifyFile_executable]
    decide
  · constructor
    · rw [classifyFile_type, if_neg]
      decide
    · rw [classifyFile_executable]
      decide

mutual

/-- Every entry the loop body adds to the model is a `classifyFile`
record. -/
theorem readDirectoryItem_mem_model {basePath : String} {e : FsEntry}
    {acc : FileModel × List String} {p : String} {v : FileEntry}
    (h : (p, v) ∈ (readDirectoryItem basePath e acc).1) :
    (p, v) ∈ acc.1 ∨ ∃ n c, v = classifyFile n c := by
  cases e with
  | file name read =>
    cases read with
    | ok content =>
      by_cases hj : pathJoin basePath name = "__proto__"
      · exact Or.inl (by simpa [readDirectoryItem, jsSetKey, hj] using h)
      · rcases mem_setKey (by simpa [readDirectoryItem, jsSetKey, hj] using h) with h' | h'
        · exact Or.inl h'
        · exact Or.inr ⟨name, content, h'.2⟩
    | error msg => exact Or.inl (by simpa [readDirectoryItem] using h)
  | dir name children =>
    exact readDirectoryRecursive_mem_model (by simpa [readDirectoryItem] using h)

/-- Every entry the directory walk adds to the model is a `classifyFile`
record. -/
theorem readDirectoryRecursive_mem_model {basePath : String} {es : List FsEntry}
    {acc : FileModel × List String} {p : String} {v : FileEntry}
    (h : (p, v) ∈ (readDirectoryRecursive basePath es acc).1) :
    (p, v) ∈ acc.1 ∨ ∃ n c, v = classifyFile n c := by
  cases es with
  | nil => exact Or.inl (by simpa [readDirectoryRecursive] using h)
  | cons e rest =>
    rcases readDirectoryRecursive_mem_model
        (by simpa [readDirectoryRecursive] using h) with h' | h'
    · exact readDirectoryItem_mem_model h'
    · exact Or.inr h'

end

/-- [C10] Every entry of the file model built by the materializer that is
marked executable has kind text: the executable allowlist is disjoint from
the binary denylist, so no binary entry is ever executable. -/
theorem extract_executable_entries_are_text (root : List FsEntry) (p : String)
    (v : FileEntry) (hmem : (p, v) ∈ (extractZipToMemory root).1)
    (hexec : v.executable = true) : v.type = EntryKind.text := by
  rcases readDirectoryRecursive_mem_model (by simpa [extractZipToMemory] using hmem)
    with h | ⟨n, c, rfl⟩
  · simp at h
  · rw [classifyFile_executable] at hexec
    rw [classifyFile_type, executable_not_binary n hexec]
    rfl

/-- Witness for `extract_executable_entries_are_text` at a one-file tree
containing the `gradlew` launcher script. -/
theorem extract_executable_entries_are_text_witness :
    ("gradlew", classifyFile "gradlew" "exec java")
      ∈ (extractZipToMemory [FsEntry.file "gradlew" (Except.ok "exec java")]).1 ∧
    (classifyFile "gradlew" "exec java").executable = true ∧
    (classifyFile "gradlew" "exec java").type = EntryKind.text :=
  ⟨by decide, by decide,
   extract_executable_entries_are_text [FsEntry.file "gradlew" (Except.ok "exec java")]
     "gradlew" (classifyFile "gradlew" "exec java") (by decide) (by decide)⟩

/-! ### Lemmas and theorems about the materializer walk -/

mutual

/-- A path not below the node is untouched by the loop body. -/
theorem readDirectoryItem_lookup_not_mem {basePath p : String} {e : FsEntry}
    {acc : FileModel × List String} (h : p ∉ allPathsItem basePath e) :
    lookupKey (readDirectoryItem basePath e acc).1 p = lookupKey acc.1 p := by
  cases e with
  | file name read =>
    cases read with
    | ok content =>
      have hp : pathJoin basePath name ≠ p := by
        intro he
        exact h (by simp [allPathsItem, he])
      by_cases hj : pathJoin basePath name = "__proto__"
      · simp [readDirectoryItem, jsSetKey, hj]
      · simp [readDirectoryItem, jsSetKey, hj, lookupKey_setKey, hp]
    | error msg => simp [readDirectoryItem]
  | dir name children =>
    exact readDirectoryRecursive_lookup_not_mem (by simpa [allPathsItem] using h)

/-- A path not below any of the nodes is untouched by the walk. -/
theorem readDirectoryRecursive_lookup_not_mem {basePath p : String} {es : List FsEntry}
    {acc : FileModel × List String} (h : p ∉ allPathsList basePath es) :
    lookupKey (readDirectoryRecursive basePath es acc).1 p = lookupKey acc.1 p := by
  cases es with
  | nil => simp [readDirectoryRecursive]
  | cons e rest =>
    rw [allPathsList] at h
    have h1 : p ∉ allPathsItem basePath e := fun hm => h (List.mem_append_left _ hm)
    have h2 : p ∉ allPathsList basePath rest := fun hm => h (List.mem_append_right _ hm)
    calc lookupKey (readDirectoryRecursive basePath (e :: rest) acc).1 p
        = lookupKey (readDirectoryItem basePath e acc).1 p :=
          readDirectoryRecursive_lookup_not_mem h2
      _ = lookupKey acc.1 p := readDirectoryItem_lookup_not_mem h1

end

mutual

theorem okFilesItem_path_mem {basePath p n c : String} {e : FsEntry}
    (h : (p, n, c) ∈ okFilesItem basePath e) : p ∈ allPathsItem basePath e := by
  cases e with
  | file name read =>
    cases read with
    | ok content =>
      simp only [okFilesItem, List.mem_singleton, Prod.mk.injEq] at h
      simp [allPathsItem, h.1]
    | error msg => simp [okFilesItem] at h
  | dir name children =>
    simp only [okFilesItem] at h
    simpa [allPathsItem] using okFilesList_path_mem h

theorem okFilesList_path_mem {basePath p n c : String} {es : List FsEntry}
    (h : (p, n, c) ∈ okFilesList basePath es) : p ∈ allPathsList basePath es := by
  cases es with
  | nil => simp [okFilesList] at h
  | cons e rest =>
    rw [okFilesList, List.mem_append] at h
    rw [allPathsList, List.mem_append]
    rcases h with h | h
    · exact Or.inl (okFilesItem_path_mem h)
    · exact Or.inr (okFilesList_path_mem h)

end

mutual

theorem errFilesItem_path_mem {basePath p m : String} {e : FsEntry}
    (h : (p, m) ∈ errFilesItem basePath e) : p ∈ allPathsItem basePath e := by
  cases e with
  | file name read =>
    cases read with
    | ok content => simp [errFilesItem] at h
    | error msg =>
      simp only [errFilesItem, List.mem_singleton, Prod.mk.injEq] at h
      simp [allPathsItem, h.1]
  | dir name children =>
    simp only [errFilesItem] at h
    simpa [allPathsItem] using errFilesList_path_mem h

theorem errFilesList_path_mem {basePath p m : String} {es : List FsEntry}
    (h : (p, m) ∈ errFilesList basePath es) : p ∈ allPathsList basePath es := by
  cases es with
  | nil => simp [errFilesList] at h
  | cons e rest =>
    rw [errFilesList, List.mem_append] at h
    rw [allPathsList, List.mem_append]
    rcases h with h | h
    · exact Or.inl (errFilesItem_path_mem h)
    · exact Or.inr (errFilesList_path_mem h)

end

mutual

/-- A successfully readable file below the node ends up in the model under
its relative path, classified from its bare name. -/
theorem readDirectoryItem_lookup_ok {basePath p n c : String} {e : FsEntry}
    {acc : FileModel × List String} (hmem : (p, n, c) ∈ okFilesItem basePath e)
    (hnd : (allPathsItem basePath e).Nodup) (hp : p ≠ "__proto__") :
    lookupKey (readDirectoryItem basePath e acc).1 p = some (classifyFile n c) := by
  cases e with
  | file name read =>
    cases read with
    | ok content =>
      simp only [okFilesItem, List.mem_singleton, Prod.mk.injEq] at hmem
      obtain ⟨rfl, rfl, rfl⟩ := hmem
      simp [readDirectoryItem, jsSetKey, hp, lookupKey_setKey]
    | error msg => simp [okFilesItem] at hmem
  | dir name children =>
    simp only [okFilesItem] at hmem
    exact readDirectoryRecursive_lookup_ok hmem (by simpa [allPathsItem] using hnd) hp

/-- A successfully readable file below the node list ends up in the model
under its relative path, classified from its bare name. -/
theorem readDirectoryRecursive_lookup_ok {basePath p n c : String} {es : List FsEntry}
    {acc : FileModel × List String} (hmem : (p, n, c) ∈ okFilesList basePath es)
    (hnd : (allPathsList basePath es).Nodup) (hp : p ≠ "__proto__") :
    lookupKey (readDirectoryRecursive basePath es acc).1 p = some (classifyFile n c) := by
  cases es with
  | nil => simp [okFilesList] at hmem
  | cons e rest =>
    rw [allPathsList, List.nodup_append] at hnd
    obtain ⟨hnd1, hnd2, hdisj⟩ := hnd
    rw [okFilesList, List.mem_append] at hmem
    rcases hmem with hmem | hmem
    · have hrest : p ∉ allPathsList basePath rest :=
        fun hm => hdisj (okFilesItem_path_mem hmem) hm
      calc lookupKey (readDirectoryRecursive basePath (e :: rest) acc).1 p
          = lookupKey (readDirectoryItem basePath e acc).1 p :=
            readDirectoryRecursive_lookup_not_mem hrest
        _ = some (classifyFile n c) := readDirectoryItem_lookup_ok hmem hnd1 hp
    · rw [readDirectoryRecursive]
      exact readDirectoryRecursive_lookup_ok hmem hnd2 hp

end

mutual

/-- An unreadable file below the node leaves the model unchanged at its
relative path. -/
theorem readDirectoryItem_lookup_err {basePath p m : String} {e : FsEntry}
    {acc : FileModel × List String} (hmem : (p, m) ∈ errFilesItem basePath e)
    (hnd : (allPathsItem basePath e).Nodup) :
    lookupKey (readDirectoryItem basePath e acc).1 p = lookupKey acc.1 p := by
  cases e with
  | file name read =>
    cases read with
    | ok content => simp [errFilesItem] at hmem
    | error msg => simp [readDirectoryItem]
  | dir name children =>
    simp only [errFilesItem] at hmem
    exact readDirectoryRecursive_lookup_err hmem (by simpa [allPathsItem] using hnd)

/-- An unreadable file below the node list leaves the model unchanged at
its relative path. -/
theorem readDirectoryRecursive_lookup_err {basePath p m : String} {es : List FsEntry}
    {acc : FileModel × List String} (hmem : (p, m) ∈ errFilesList basePath es)
    (hnd : (allPathsList basePath es).Nodup) :
    lookupKey (readDirectoryRecursive basePath es acc).1 p = lookupKey acc.1 p := by
  cases es with
  | nil => simp [errFilesList] at hmem
  | cons e rest =>
    rw [allPathsList, List.nodup_append] at hnd
    obtain ⟨hnd1, hnd2, hdisj⟩ := hnd
    rw [errFilesList, List.mem_append] at hmem
    rcases hmem with hmem | hmem
    · have hp : p ∉ allPathsList basePath rest :=
        fun hm => hdisj (errFilesItem_path_mem hmem) hm
      calc lookupKey (readDirectoryRecursive basePath (e :: rest) acc).1 p
          = lookupKey (readDirectoryItem basePath e acc).1 p :=
            readDirectoryRecursive_lookup_not_mem hp
        _ = lookupKey acc.1 p := readDirectoryItem_lookup_err hmem hnd1
    · have hp : p ∉ allPathsItem basePath e :=
        fun hm => hdisj hm (errFilesList_path_mem hmem)
      calc lookupKey (readDirectoryRecursive basePath (e :: rest) acc).1 p
          = lookupKey (readDirectoryItem basePath e acc).1 p :=
            readDirectoryRecursive_lookup_err hmem hnd2
        _ = lookupKey acc.1 p := readDirectoryItem_lookup_not_mem hp

end

mutual

/-- Warnings already logged survive the loop body. -/
theorem readDirectoryItem_warnings_mono {basePath : String} {e : FsEntry}
    {acc : FileModel × List String} {w : String} (h : w ∈ acc.2) :
    w ∈ (readDirectoryItem basePath e acc).2 := by
  cases e with
  | file name read =>
    cases read with
    | ok content => simpa [readDirectoryItem] using h
    | error msg =>
      simp only [readDirectoryItem]
      exact List.mem_append_left _ h
  | dir name children =>
    exact readDirectoryRecursive_warnings_mono h

/-- Warnings already logged survive the walk. -/
theorem readDirectoryRecursive_warnings_mono {basePath : String} {es : List FsEntry}
    {acc : FileModel × List String} {w : String} (h : w ∈ acc.2) :
    w ∈ (readDirectoryRecursive basePath es acc).2 := by
  cases es with
  | nil => simpa [readDirectoryRecursive] using h
  | cons e rest =>
    rw [readDirectoryRecursive]
    exact readDirectoryRecursive_warnings_mono (readDirectoryItem_warnings_mono h)

end

mutual

/-- Every unreadable file below the node gets its warning logged. -/
theorem readDirectoryItem_warning_recorded {basePath p m : String} {e : FsEntry}
    {acc : FileModel × List String} (hmem : (p, m) ∈ errFilesItem basePath e) :
    readWarning p m ∈ (readDirectoryItem basePath e acc).2 := by
  cases e with
  | file name read =>
    cases read with
    | ok content => simp [errFilesItem] at hmem
    | error msg =>
      simp only [errFilesItem, List.mem_singleton, Prod.mk.injEq] at hmem
      obtain ⟨rfl, rfl⟩ := hmem
      simp [readDirectoryItem]
  | dir name children =>
    simp only [errFilesItem] at hmem
    exact readDirectoryRecursive_warning_recorded hmem

/-- Every unreadable file below the node list gets its warning logged. -/
theorem readDirectoryRecursive_warning_recorded {basePath p m : String} {es : List FsEntry}
    {acc : FileModel × List String} (hmem : (p, m) ∈ errFilesList basePath es) :
    readWarning p m ∈ (readDirectoryRecursive basePath es acc).2 := by
  cases es with
  | nil => simp [errFilesList] at hmem
  | cons e rest =>
    rw [errFilesList, List.mem_append] at hmem
    rcases hmem with hmem | hmem
    · rw [readDirectoryRecursive]
      exact readDirectoryRecursive_warnings_mono (readDirectoryItem_warning_recorded hmem)
    · rw [readDirectoryRecursive]
      exact readDirectoryRecursive_warning_recorded hmem

end

/-- [C8, counterexample] The claim reads "every file in the unpacked tree
that is successfully read appears in the FileModel under its path relative
to the unpack root".  A root file named `__proto__` is successfully read,
yet the assignment `files[relativePath] = ...` invokes the prototype
accessor inherited from `Object.prototype` and creates no own entry, so the
file is missing from the returned model. -/
theorem extractZipToMemory_proto_counterexample :
    ("__proto__", "__proto__", "payload")
      ∈ okFilesList "" [FsEntry.file "__proto__" (Except.ok "payload")] ∧
    lookupKey (extractZipToMemory
      [FsEntry.file "__proto__" (Except.ok "payload")]).1 "__proto__" = none := by
  refine ⟨?_, ?_⟩ <;> decide

/-- [C8, amended] When the relative paths of the extracted tree are
distinct (as they are for a real directory tree), a per-file read failure
is non-fatal: the failing entry is absent from the returned file model
while its warning is recorded, and every successfully read file appears in
the model under its path relative to the unpack root, classified from its
bare name — except a file whose relative path is the literal property name
`__proto__`, which the JavaScript assignment drops (it replaces the
object's prototype instead of creating an entry). -/
theorem extractZipToMemory_spec (root : List FsEntry)
    (hnd : (allPathsList "" root).Nodup) :
    (∀ p n c, (p, n, c) ∈ okFilesList "" root → p ≠ "__proto__" →
      lookupKey (extractZipToMemory root).1 p = some (classifyFile n c)) ∧
    (∀ p m, (p, m) ∈ errFilesList "" root →
      lookupKey (extractZipToMemory root).1 p = none ∧
      readWarning p m ∈ (extractZipToMemory root).2) := by
  refine ⟨fun p n c hmem hp => ?_, fun p m hmem => ⟨?_, ?_⟩⟩
  · exact readDirectoryRecursive_lookup_ok hmem hnd hp
  · rw [extractZipToMemory, readDirectoryRecursive_lookup_err hmem hnd]
    rfl
  · exact readDirectoryRecursive_warning_recorded hmem

/-- Witness for `extractZipToMemory_spec` at a concrete tree: a readable
`src/Main.java`, an unreadable `src/locked.txt` and a readable top-level
`build.gradle`. -/
theorem extractZipToMemory_spec_witness :
    lookupKey (extractZipToMemory
      [FsEntry.dir "src" [FsEntry.file "Main.java" (Except.ok "class Main"),
        FsEntry.file "locked.txt" (Except.error "EACCES")],
       FsEntry.file "build.gradle" (Except.ok "plugins")]).1 "src/Main.java"
      = some (classifyFile "Main.java" "class Main") ∧
    lookupKey (extractZipToMemory
      [FsEntry.dir "src" [FsEntry.file "Main.java" (Except.ok "class Main"),
        FsEntry.file "locked.txt" (Except.error "EACCES")],
       FsEntry.file "build.gradle" (Except.ok "plugins")]).1 "src/locked.txt" = none ∧
    readWarning "src/locked.txt" "EACCES" ∈ (extractZipToMemory
      [FsEntry.dir "src" [FsEntry.file "Main.java" (Except.ok "class Main"),
        FsEntry.file "locked.txt" (Except.error "EACCES")],
       FsEntry.file "build.gradle" (Except.ok "plugins")]).2 :=
  ⟨(extractZipToMemory_spec
      [FsEntry.dir "src" [FsEntry.file "Main.java" (Except.ok "class Main"),
        FsEntry.file "locked.txt" (Except.error "EACCES")],
       FsEntry.file "build.gradle" (Except.ok "plugins")] (by decide)).1
      "src/Main.java" "Main.java" "class Main" (by decide) (by decide),
   ((extractZipToMemory_spec
      [FsEntry.dir "src" [FsEntry.file "Main.java" (Except.ok "class Main"),
        FsEntry.file "locked.txt" (Except.error "EACCES")],
       FsEntry.file "build.gradle" (Except.ok "plugins")] (by decide)).2
      "src/locked.txt" "EACCES" (by decide)).1,
   ((extractZipToMemory_spec
      [FsEntry.dir "src" [FsEntry.file "Main.java" (Except.ok "class Main"),
        FsEntry.file "locked.txt" (Except.error "EACCES")],
       FsEntry.file "build.gradle" (Except.ok "plugins")] (by decide)).2
      "src/locked.txt" "EACCES" (by decide)).2⟩

/-! ### Theorems about the archive fetcher -/

/-- [C1, counterexample] The claim reads "fails exactly when the response
status is not a 2xx success".  Status 201 is a 2xx success, yet the code
(`res.statusCode !== 200`) rejects with the status-carrying error and
creates no file. -/
theorem downloadSpringBootZip_rejects_on_201 :
    downloadSpringBootZip "https://start.spring.io/starter.zip?type=gradle-project"
      "/tmp/starter.zip" (DownloadEvent.response 201 TransferOutcome.finish)
      = (Settlement.rejected (DlError.statusError 201), false) ∧
    200 ≤ 201 ∧ 201 < 300 :=
  ⟨rfl, by omega, by omega⟩

/-- [C1, amended] The single GET request's promise rejects with the fatal
status-carrying error exactly when the response status is not 200 (rather
than "not 2xx"); on status 200 with the transfer finishing, it resolves
with the destination path and the one destination file exists. -/
theorem downloadSpringBootZip_status_spec (url outputPath : String) (status : Nat)
    (transfer : TransferOutcome) :
    ((downloadSpringBootZip url outputPath (DownloadEvent.response status transfer)).1
        = Settlement.rejected (DlError.statusError status) ↔ status ≠ 200) ∧
    downloadSpringBootZip url outputPath (DownloadEvent.response 200 TransferOutcome.finish)
      = (Settlement.resolved outputPath, true) := by
  refine ⟨?_, rfl⟩
  by_cases h : status = 200
  · subst h
    cases transfer <;> simp [downloadSpringBootZip]
  · simp [downloadSpringBootZip, h]

/-- [C6] Behaviour of the fetcher at the two kinds of stream-level transfer
failure: a destination write-stream error (here disk-full) is rejected after
the partial file is unlinked, but a response-stream error mid-transfer
(here a connection reset) reaches no handler — `res.pipe(zipFile)` does not
forward source errors — so the promise never settles and the partially
written destination file remains on disk. -/
theorem downloadSpringBootZip_stream_failures :
    downloadSpringBootZip "https://start.spring.io/starter.zip?type=gradle-project"
      "/tmp/starter.zip"
      (DownloadEvent.response 200 (TransferOutcome.writeStreamError "ENOSPC: no space left on device"))
      = (Settlement.rejected (DlError.streamError "ENOSPC: no space left on device"), false) ∧
    downloadSpringBootZip "https://start.spring.io/starter.zip?type=gradle-project"
      "/tmp/starter.zip"
      (DownloadEvent.response 200 (TransferOutcome.responseStreamError "read ECONNRESET"))
      = (Settlement.pending, true) :=
  ⟨rfl, rfl⟩

/-! ### Theorems about the orchestration wrapper -/

/-- [C2] On every exit path of `scaffold` — download failure, extraction
failure, or success — the staging-directory cleanup runs before the promise
settles and removes the directory exactly when `fs.rmSync` does not throw;
the primary result is the pipeline's own result, it does not depend on
whether cleanup fails, and a cleanup failure is surfaced only as a logged
warning. -/
theorem scaffold_cleanup_spec (r : ScaffoldRun) (tempDir : String) :
    ((scaffold r tempDir).stagingRemoved = true ↔ r.cleanupFails = false) ∧
    (∀ b, (scaffold { r with cleanupFails := b } tempDir).primary
        = (scaffold r tempDir).primary) ∧
    (scaffold r tempDir).primary = runPipeline r ∧
    (∀ e, (scaffold { r with downloadOutcome := StepOutcome.fatal e } tempDir).primary
        = Except.error e) ∧
    (∀ e z, (scaffold { r with
        downloadOutcome := StepOutcome.ok z,
        extractOutcome := StepOutcome.fatal e } tempDir).primary = Except.error e) ∧
    (∀ z files, (scaffold { r with
        downloadOutcome := StepOutcome.ok z,
        extractOutcome := StepOutcome.ok files } tempDir).primary
        = Except.ok (removeFiles files r.filesToRemove).1) ∧
    (scaffold { r with cleanupFails := true } tempDir).cleanupWarnings
      = ["Could not clean up temporary directory " ++ tempDir] ∧
    (scaffold { r with cleanupFails := false } tempDir).cleanupWarnings = [] := by
  refine ⟨?_, ?_, rfl, ?_, ?_, ?_, ?_, ?_⟩
  · cases h : r.cleanupFails <;> simp [scaffold, runCleanup, h]
  · intro b
    cases r
    rfl
  · intro e
    simp [scaffold, runPipeline]
  · intro e z
    simp [scaffold, runPipeline]
  · intro z files
    simp [scaffold, runPipeline]
  · simp [scaffold, runCleanup]
  · simp [scaffold, runCleanup]

/-! ### Theorems about the default resolution -/

/-- [C4] Every `ScaffoldParameters` field that is supplied neither in the
module field values nor in the base-template configuration resolves to its
documented default — archive type `gradle-project`, Java 21, platform
3.5.3 (the latest known stable release), `jar` packaging, dependency list
`web,lombok` — and the options object `scaffold` then builds the URL from
carries exactly the resolved values as query parameters. -/
theorem scaffold_defaults_spec (fv : FieldValues) (btc : BaseTemplateConfig) :
    (fv.buildTool = none → btc.build = none →
      (resolveScaffoldParams fv btc).type = "gradle-project") ∧
    (fv.javaVersion = none → btc.javaVersion = none →
      (resolveScaffoldParams fv btc).javaVersion = "21") ∧
    (fv.springBootVersion = none → btc.platformVersion = none →
      (resolveScaffoldParams fv btc).platformVersion = "3.5.3") ∧
    (fv.packaging = none → btc.packaging = none →
      (resolveScaffoldParams fv btc).packaging = "jar") ∧
    (fv.dependencies = none → btc.dependencies = none →
      (resolveScaffoldParams fv btc).dependencies = "web,lombok") ∧
    (∀ g a pn d,
      lookupKey (urlParams (scaffoldOptions g a pn d fv btc)) "type"
        = some (resolveScaffoldParams fv btc).type ∧
      lookupKey (urlParams (scaffoldOptions g a pn d fv btc)) "javaVersion"
        = some (resolveScaffoldParams fv btc).javaVersion ∧
      lookupKey (urlParams (scaffoldOptions g a pn d fv btc)) "platformVersion"
        = some (resolveScaffoldParams fv btc).platformVersion ∧
      lookupKey (urlParams (scaffoldOptions g a pn d fv btc)) "packaging"
        = some (resolveScaffoldParams fv btc).packaging ∧
      lookupKey (urlParams (scaffoldOptions g a pn d fv btc)) "dependencies"
        = some (resolveScaffoldParams fv btc).dependencies) := by
  refine ⟨fun h1 h2 => ?_, fun h1 h2 => ?_, fun h1 h2 => ?_, fun h1 h2 => ?_,
    fun h1 h2 => ?_, fun g a pn d => ?_⟩
  · simp [resolveScaffoldParams, jsOr, h1, h2]
  · simp [resolveScaffoldParams, jsOr, h1, h2]
  · simp [resolveScaffoldParams, jsOr, h1, h2]
  · simp [resolveScaffoldParams, jsOr, h1, h2]
  · simp [resolveScaffoldParams, jsOr, h1, h2]
  · refine ⟨?_, ?_, ?_, ?_, ?_⟩ <;> simp [scaffoldOptions, urlParams, lookupKey]

/-! ### Theorems about the request builder -/

/-- [C5] The built URL is the fixed host and path followed by the
serialisation of the eleven fixed-name query parameters in fixed order;
`language` is fixed to `java`, `name` equals `artifactId`, the identity
fields map 1:1, every supplied optional field maps 1:1 to its parameter,
and the project type `scaffold` passes is one of the two layout tokens. -/
theorem buildSpringInitializrUrl_spec (o : InitializrOptions) (fv : FieldValues)
    (btc : BaseTemplateConfig) :
    buildSpringInitializrUrl o
      = "https://start.spring.io/starter.zip?" ++ serializeParams (urlParams o) ∧
    (urlParams o).map Prod.fst
      = ["type", "language", "platformVersion", "packaging", "javaVersion", "groupId",
         "artifactId", "name", "description", "packageName", "dependencies"] ∧
    lookupKey (urlParams o) "language" = some "java" ∧
    lookupKey (urlParams o) "name" = some o.artifactId ∧
    lookupKey (urlParams o) "groupId" = some o.groupId ∧
    lookupKey (urlParams o) "artifactId" = some o.artifactId ∧
    lookupKey (urlParams o) "packageName" = some o.packageName ∧
    (∀ v, o.type = some v → lookupKey (urlParams o) "type" = some v) ∧
    (∀ v, o.platformVersion = some v →
      lookupKey (urlParams o) "platformVersion" = some v) ∧
    (∀ v, o.packaging = some v → lookupKey (urlParams o) "packaging" = some v) ∧
    (∀ v, o.javaVersion = some v → lookupKey (urlParams o) "javaVersion" = some v) ∧
    (∀ v, o.description = some v → lookupKey (urlParams o) "description" = some v) ∧
    (∀ v, o.dependencies = some v → lookupKey (urlParams o) "dependencies" = some v) ∧
    ((resolveScaffoldParams fv btc).type = "gradle-project" ∨
      (resolveScaffoldParams fv btc).type = "maven-project") := by
  refine ⟨rfl, rfl, ?_, ?_, ?_, ?_, ?_, fun v hv => ?_, fun v hv => ?_, fun v hv => ?_,
    fun v hv => ?_, fun v hv => ?_, fun v hv => ?_, ?_⟩
  · simp [urlParams, lookupKey]
  · simp [urlParams, lookupKey]
  · simp [urlParams, lookupKey]
  · simp [urlParams, lookupKey]
  · simp [urlParams, lookupKey]
  · simp [urlParams, lookupKey, hv]
  · simp [urlParams, lookupKey, hv]
  · simp [urlParams, lookupKey, hv]
  · simp [urlParams, lookupKey, hv]
  · simp [urlParams, lookupKey, hv]
  · simp [urlParams, lookupKey, hv]
  · by_cases hb : jsOr fv.buildTool (jsOr btc.build "gradle") = "maven"
    · exact Or.inr (by simp [resolveScaffoldParams, hb])
    · exact Or.inl (by simp [resolveScaffoldParams, hb])

/-- A concrete options object with every field supplied, used as witness
input. -/
def sampleOptions : InitializrOptions :=
  { groupId := "com.example"
    artifactId := "shop-api"
    packageName := "com.example.shop"
    type := some "maven-project"
    javaVersion := some "17"
    platformVersion := some "3.4.1"
    packaging := some "war"
    dependencies := some "web"
    description := some "demo" }

/-- Witness for `buildSpringInitializrUrl_spec` at a concrete options
object with every field supplied. -/
theorem buildSpringInitializrUrl_spec_witness :
    lookupKey (urlParams sampleOptions) "name" = some "shop-api" ∧
    lookupKey (urlParams sampleOptions) "type" = some "maven-project" :=
  ⟨(buildSpringInitializrUrl_spec sampleOptions {} {}).2.2.2.1,
   (buildSpringInitializrUrl_spec sampleOptions {} {}).2.2.2.2.2.2.2.1
     "maven-project" rfl⟩

theorem serializeParams_data (params : List (String × String)) :
    (serializeParams params).data
      = serializeParamsL (params.map fun q => (q.1.data, q.2.data)) := rfl

/-- [C9] The request builder is a pure function: equal parameter sets give
byte-identical URLs, and on valid (ASCII) parameter sets the URL determines
every field, so two parameter sets differing in any field — in particular
in a single one — produce different URLs. -/
theorem buildSpringInitializrUrl_pure_injective :
    (∀ p₁ p₂ : ScaffoldParameters, p₁ = p₂ →
      buildSpringInitializrUrl (toOptions p₁) = buildSpringInitializrUrl (toOptions p₂)) ∧
    (∀ p₁ p₂ : ScaffoldParameters, ValidParams p₁ → ValidParams p₂ →
      buildSpringInitializrUrl (toOptions p₁) = buildSpringInitializrUrl (toOptions p₂) →
      p₁ = p₂) ∧
    (∀ p₁ p₂ : ScaffoldParameters, ValidParams p₁ → ValidParams p₂ → p₁ ≠ p₂ →
      buildSpringInitializrUrl (toOptions p₁) ≠ buildSpringInitializrUrl (toOptions p₂)) := by
  have inj : ∀ p₁ p₂ : ScaffoldParameters, ValidParams p₁ → ValidParams p₂ →
      buildSpringInitializrUrl (toOptions p₁) = buildSpringInitializrUrl (toOptions p₂) →
      p₁ = p₂ := by
    intro p₁ p₂ v₁ v₂ h
    obtain ⟨vg₁, va₁, vpn₁, vt₁, vj₁, vpl₁, vpk₁, vd₁, vde₁⟩ := v₁
    obtain ⟨vg₂, va₂, vpn₂, vt₂, vj₂, vpl₂, vpk₂, vd₂, vde₂⟩ := v₂
    have hd := congrArg String.data h
    rw [buildSpringInitializrUrl, buildSpringInitializrUrl, String.data_append,
      String.data_append, serializeParams_data, serializeParams_data] at hd
    replace hd := List.append_cancel_left hd
    simp only [urlParams, toOptions, Option.getD_some, List.map_cons, List.map_nil,
      serializeParamsL] at hd
    replace hd := List.append_cancel_left hd
    injection hd with _ hd
    obtain ⟨hType, hd⟩ := peel_value vt₁ vt₂ hd
    replace hd := List.append_cancel_left hd
    injection hd with _ hd
    replace hd := List.append_cancel_left hd
    injection hd with _ hd
    replace hd := List.append_cancel_left hd
    injection hd with _ hd
    obtain ⟨hPlat, hd⟩ := peel_value vpl₁ vpl₂ hd
    replace hd := List.append_cancel_left hd
    injection hd with _ hd
    obtain ⟨hPack, hd⟩ := peel_value vpk₁ vpk₂ hd
    replace hd := List.append_cancel_left hd
    injection hd with _ hd
    obtain ⟨hJava, hd⟩ := peel_value vj₁ vj₂ hd
    replace hd := List.append_cancel_left hd
    injection hd with _ hd
    obtain ⟨hGroup, hd⟩ := peel_value vg₁ vg₂ hd
    replace hd := List.append_cancel_left hd
    injection hd with _ hd
    obtain ⟨hArtifact, hd⟩ := peel_value va₁ va₂ hd
    replace hd := List.append_cancel_left hd
    injection hd with _ hd
    obtain ⟨-, hd⟩ := peel_value va₁ va₂ hd
    replace hd := List.append_cancel_left hd
    injection hd with _ hd
    obtain ⟨hDesc, hd⟩ := peel_value vde₁ vde₂ hd
    replace hd := List.append_cancel_left hd
    injection hd with _ hd
    obtain ⟨hPkgName, hd⟩ := peel_value vpn₁ vpn₂ hd
    replace hd := List.append_cancel_left hd
    injection hd with _ hd
    have hDeps := encodeForm_data_inj vd₁ vd₂ hd
    cases p₁
    cases p₂
    congr 1
  refine ⟨fun p₁ p₂ h => by rw [h], inj, fun p₁ p₂ v₁ v₂ hne hurl => hne (inj p₁ p₂ v₁ v₂ hurl)⟩

/-- A concrete valid parameter set, used as witness input. -/
def sampleParams : ScaffoldParameters :=
  { groupId := "com.example"
    artifactId := "shop-api"
    packageName := "com.example.shop"
    type := "gradle-project"
    javaVersion := "21"
    platformVersion := "3.5.3"
    packaging := "jar"
    dependencies := "web,lombok"
    description := "Spring Boot project for shop" }

/-- Witness for `buildSpringInitializrUrl_pure_injective`: both validity
hypotheses and the URL-equality hypothesis are discharged at the concrete
parameter set `sampleParams`. -/
theorem buildSpringInitializrUrl_pure_injective_witness :
    sampleParams = sampleParams :=
  buildSpringInitializrUrl_pure_injective.2.1 sampleParams sampleParams
    ⟨rfl, rfl, rfl, rfl, rfl, rfl, rfl, rfl, rfl⟩
    ⟨rfl, rfl, rfl, rfl, rfl, rfl, rfl, rfl, rfl⟩ rfl

/-- Witness for `scaffold_defaults_spec`: with both configuration objects
empty, every field resolves to its documented default. -/
theorem scaffold_defaults_spec_witness :
    (resolveScaffoldParams {} {}).type = "gradle-project" ∧
    (resolveScaffoldParams {} {}).javaVersion = "21" ∧
    (resolveScaffoldParams {} {}).platformVersion = "3.5.3" ∧
    (resolveScaffoldParams {} {}).packaging = "jar" ∧
    (resolveScaffoldParams {} {}).dependencies = "web,lombok" :=
  ⟨(scaffold_defaults_spec {} {}).1 rfl rfl,
   (scaffold_defaults_spec {} {}).2.1 rfl rfl,
   (scaffold_defaults_spec {} {}).2.2.1 rfl rfl,
   (scaffold_defaults_spec {} {}).2.2.2.1 rfl rfl,
   (scaffold_defaults_spec {} {}).2.2.2.2.1 rfl rfl⟩

end CodeSpring
